import Mathlib

/-!
# Electric and magnetic field value types (`main.cpp`)

A shallow embedding of the three classes of `main.cpp` (`Field`, `Electric_Field`,
`Magnetic_Field`) and of the `double` arithmetic they run on.

* `F64` is an executable model of IEEE 754 binary64 data with round-to-nearest-even
  `+`, `*`, `/` and correctly rounded literals.  A NaN keeps its sign, its signalling
  bit and its payload, and the operations treat NaNs as the SSE2 instructions of x86-64
  do.
* The classes are written over an arbitrary number type `α` carrying the operations the
  source uses, so the same definitions run on `F64` and on any exact field.
* No constructor writes `calculatedE` or `calculatedB`: a new object holds there the
  double that its storage held before.  That double is the argument `mem` of every
  definition that builds an object.
-/

set_option maxRecDepth 100000

namespace Inheritance

/-! ## IEEE 754 binary64 -/

/-- A binary64 datum: a NaN with its sign bit, its kind (signalling or quiet) and the 51
payload bits below the quiet bit, a signed infinity, or the finite number
`(-1)^neg * m * 2^e`.  Results of arithmetic are canonical: `m < 2^53`,
`-1074 ≤ e ≤ 971`, and `2^52 ≤ m` unless `e = -1074` (subnormals and the two zeros). -/
inductive F64 where
  | nan (neg : Bool) (signalling : Bool) (payload : Nat) : F64
  | inf (neg : Bool) : F64
  | fin (neg : Bool) (m : Nat) (e : Int) : F64
  deriving DecidableEq

namespace F64

/-- Number of binary digits of `n`, by halving; `fuel` bounds the number of steps. -/
def bitsAux : Nat → Nat → Nat
  | 0, _ => 0
  | fuel + 1, n => if n = 0 then 0 else bitsAux fuel (n / 2) + 1

/-- Position of the leading binary digit of `n` (`0` for `n = 0`). -/
def ilog2 (n : Nat) : Nat := bitsAux n n - 1

/-- Round the exact magnitude `n / d` (`d > 0`) with sign `neg` to the nearest binary64
value, ties to even; magnitudes past the largest finite value give an infinity. -/
def round (neg : Bool) (n d : Nat) : F64 :=
  if n = 0 then fin neg 0 (-1074) else
  let e0 : Int := (ilog2 n : Int) - (ilog2 d : Int) - 52
  let q0 := if 0 ≤ e0 then n / (d * 2 ^ e0.toNat) else (n * 2 ^ (-e0).toNat) / d
  let e1 := if q0 < 2 ^ 52 then e0 - 1 else e0
  let e := max e1 (-1074)
  let num := if 0 ≤ e then n else n * 2 ^ (-e).toNat
  let den := if 0 ≤ e then d * 2 ^ e.toNat else d
  let q := num / den
  let r := num % den
  let q1 := if den < 2 * r ∨ (2 * r = den ∧ q % 2 = 1) then q + 1 else q
  let m := if q1 = 2 ^ 53 then 2 ^ 52 else q1
  let e2 := if q1 = 2 ^ 53 then e + 1 else e
  if 971 < e2 then inf neg else fin neg m e2

/-- The NaN an invalid operation (`inf - inf`, `0 * inf`, `0 / 0`, `inf / inf`) delivers:
quiet, sign bit set, payload zero. -/
def defaultNaN : F64 := nan true false 0

/-- The datum with a signalling NaN made quiet; sign and payload stay. -/
def quiet : F64 → F64
  | nan s _ p => nan s false p
  | x => x

/-- Numerator of `m * 2^e` over the denominator `den e`. -/
def num (m : Nat) (e : Int) : Nat := if 0 ≤ e then m * 2 ^ e.toNat else m

/-- Denominator of `m * 2^e`: a power of two. -/
def den (e : Int) : Nat := if 0 ≤ e then 1 else 2 ^ (-e).toNat

/-- Binary64 addition.  A NaN operand is returned quiet, the first one if both are NaNs. -/
def add : F64 → F64 → F64
  | nan s _ p, _ => nan s false p
  | _, nan t _ q => nan t false q
  | inf s, inf t => if s = t then inf s else defaultNaN
  | inf s, fin _ _ _ => inf s
  | fin _ _ _, inf t => inf t
  | fin s m e, fin t k f =>
    let a := num m e * den f
    let b := num k f * den e
    let d := den e * den f
    if s = t then round s (a + b) d
    else if a = b then fin false 0 (-1074)
    else if b < a then round s (a - b) d
    else round t (b - a) d

/-- Binary64 multiplication.  A NaN operand is returned quiet, the first one if both are
NaNs. -/
def mul : F64 → F64 → F64
  | nan s _ p, _ => nan s false p
  | _, nan t _ q => nan t false q
  | inf s, inf t => inf (xor s t)
  | inf s, fin t k _ => if k = 0 then defaultNaN else inf (xor s t)
  | fin s m _, inf t => if m = 0 then defaultNaN else inf (xor s t)
  | fin s m e, fin t k f => round (xor s t) (num m e * num k f) (den e * den f)

/-- Binary64 division; a finite nonzero number over a zero is an infinity, `0 / 0` is a
NaN.  A NaN operand is returned quiet, the first one if both are NaNs. -/
def div : F64 → F64 → F64
  | nan s _ p, _ => nan s false p
  | _, nan t _ q => nan t false q
  | inf _, inf _ => defaultNaN
  | inf s, fin t _ _ => inf (xor s t)
  | fin s _ _, inf t => fin (xor s t) 0 (-1074)
  | fin s m e, fin t k f =>
    if k = 0 then (if m = 0 then defaultNaN else inf (xor s t))
    else round (xor s t) (num m e * den f) (den e * num k f)

/-- A decimal literal `m * 10^(-e)` (`s = true`) or `m * 10^e`, correctly rounded. -/
def ofScientific (m : Nat) (s : Bool) (e : Nat) : F64 :=
  if s then round false m (10 ^ e) else round false (m * 10 ^ e) 1

instance : Add F64 := ⟨add⟩
instance : Mul F64 := ⟨mul⟩
instance : Div F64 := ⟨div⟩
instance (n : Nat) : OfNat F64 n := ⟨round false n 1⟩
instance : OfScientific F64 := ⟨ofScientific⟩

/-- Whether the datum is a finite number. -/
def isFinite : F64 → Bool
  | fin _ _ _ => true
  | _ => false

/-- The rational number a finite datum stands for (`0` for NaN and the infinities). -/
def toRat : F64 → ℚ
  | fin s m e => (if s then -1 else 1) * (m : ℚ) * (2 : ℚ) ^ e
  | _ => 0

end F64

/-! ## The program -/

/-- The `<cmath>` macro `M_PI`, the one name of `main.cpp` that the file itself does not
define; a number type supplies its value. -/
class Cmath (α : Type) where
  M_PI : α

export Cmath (M_PI)

/-- On binary64, glibc's `# define M_PI 3.14159265358979323846`, read as a `double`
literal. -/
instance : Cmath F64 := ⟨3.14159265358979323846⟩

section Program

variable {α : Type}

/-- `const double epsilon_0 = 8.854187817e-12;` -/
def epsilon_0 [OfScientific α] : α := 8.854187817e-12

/-- `const double mu_0 = 4 * M_PI * 1e-7;` -/
def mu_0 [Mul α] [OfNat α 4] [OfScientific α] [Cmath α] : α := 4 * M_PI * 1e-7

/-- `class Field`: its member `double *value` points to an array of three cells that the
object allocates in its constructor and owns alone; the cells are the three fields. -/
structure Field (α : Type) where
  value0 : α
  value1 : α
  value2 : α
  deriving DecidableEq

namespace Field

/-- `Field()` -/
def ctor [OfScientific α] : Field α := { value0 := 0.0, value1 := 0.0, value2 := 0.0 }

/-- `Field(double x, double y, double z)` -/
def ctor3 (x y z : α) : Field α := { value0 := x, value1 := y, value2 := z }

/-- `double getX() const` -/
def getX (self : Field α) : α := self.value0

/-- `double getY() const` -/
def getY (self : Field α) : α := self.value1

/-- `double getZ() const` -/
def getZ (self : Field α) : α := self.value2

/-- `void setX(double x)`: the object after the call. -/
def setX (self : Field α) (x : α) : Field α := { self with value0 := x }

/-- `void setY(double y)`: the object after the call. -/
def setY (self : Field α) (y : α) : Field α := { self with value1 := y }

/-- `void setZ(double z)`: the object after the call. -/
def setZ (self : Field α) (z : α) : Field α := { self with value2 := z }

end Field

/-- `class Electric_Field : public Field`.  `calculatedE` is the double that the member
holds: the one its storage held before construction, until `calculateElectricField`
stores a value. -/
structure Electric_Field (α : Type) extends Field α where
  calculatedE : α
  deriving DecidableEq

namespace Electric_Field

/-- `Electric_Field() : Field() {}`, run on storage whose `calculatedE` holds `mem`:
the member is not written. -/
def ctor [OfScientific α] (mem : α) : Electric_Field α :=
  { toField := Field.ctor, calculatedE := mem }

/-- `Electric_Field(double x, double y, double z) : Field(x, y, z) {}`, run on storage
whose `calculatedE` holds `mem`: the member is not written. -/
def ctor3 (x y z mem : α) : Electric_Field α :=
  { toField := Field.ctor3 x y z, calculatedE := mem }

/-- `Electric_Field(const Electric_Field &other)`, the copy constructor, run on storage
whose `calculatedE` holds `mem`: the member is neither copied nor written. -/
def copy (other : Electric_Field α) (mem : α) : Electric_Field α :=
  { toField := Field.ctor3 other.getX other.getY other.getZ, calculatedE := mem }

/-- The inherited `setX` on an `Electric_Field` object. -/
def setX (self : Electric_Field α) (x : α) : Electric_Field α :=
  { self with toField := self.toField.setX x }

/-- The inherited `setY` on an `Electric_Field` object. -/
def setY (self : Electric_Field α) (y : α) : Electric_Field α :=
  { self with toField := self.toField.setY y }

/-- The inherited `setZ` on an `Electric_Field` object. -/
def setZ (self : Electric_Field α) (z : α) : Electric_Field α :=
  { self with toField := self.toField.setZ z }

/-- `void calculateElectricField(double Q, double r)`: the object after the call. -/
def calculateElectricField [Mul α] [Div α] [OfNat α 4] [OfScientific α] [Cmath α]
    (self : Electric_Field α) (Q r : α) : Electric_Field α :=
  { self with calculatedE := Q / (4 * M_PI * r * r * epsilon_0) }

/-- `double getCalculatedE() const` -/
def getCalculatedE (self : Electric_Field α) : α := self.calculatedE

/-- `Electric_Field operator+(const Electric_Field &other) const`; the returned object is
built on storage whose `calculatedE` holds `mem`. -/
def add [Add α] (self other : Electric_Field α) (mem : α) : Electric_Field α :=
  ctor3 (self.getX + other.getX) (self.getY + other.getY) (self.getZ + other.getZ) mem

/-- The call `a + b` on two objects of a store `st` of live objects, named by their
positions: the operands are read through `this` and the `const` reference, and the
returned object is a new one, built on storage whose `calculatedE` holds `mem` and
placed after the live ones.  The result is the store after the call and the position
of the sum; `none` when a position names no object. -/
def addCall [Add α] (st : List (Electric_Field α)) (a b : Nat) (mem : α) :
    Option (List (Electric_Field α) × Nat) :=
  match st[a]?, st[b]? with
  | some x, some y => some (st ++ [x.add y mem], st.length)
  | _, _ => none

end Electric_Field

/-- `class Magnetic_Field : public Field`.  `calculatedB` is the double that the member
holds: the one its storage held before construction, until `calculateMagneticField`
stores a value. -/
structure Magnetic_Field (α : Type) extends Field α where
  calculatedB : α
  deriving DecidableEq

namespace Magnetic_Field

/-- `Magnetic_Field() : Field() {}`, run on storage whose `calculatedB` holds `mem`:
the member is not written. -/
def ctor [OfScientific α] (mem : α) : Magnetic_Field α :=
  { toField := Field.ctor, calculatedB := mem }

/-- `Magnetic_Field(double x, double y, double z) : Field(x, y, z) {}`, run on storage
whose `calculatedB` holds `mem`: the member is not written. -/
def ctor3 (x y z mem : α) : Magnetic_Field α :=
  { toField := Field.ctor3 x y z, calculatedB := mem }

/-- `Magnetic_Field(const Magnetic_Field &other)`, the copy constructor, run on storage
whose `calculatedB` holds `mem`: the member is neither copied nor written. -/
def copy (other : Magnetic_Field α) (mem : α) : Magnetic_Field α :=
  { toField := Field.ctor3 other.getX other.getY other.getZ, calculatedB := mem }

/-- The inherited `setX` on a `Magnetic_Field` object. -/
def setX (self : Magnetic_Field α) (x : α) : Magnetic_Field α :=
  { self with toField := self.toField.setX x }

/-- The inherited `setY` on a `Magnetic_Field` object. -/
def setY (self : Magnetic_Field α) (y : α) : Magnetic_Field α :=
  { self with toField := self.toField.setY y }

/-- The inherited `setZ` on a `Magnetic_Field` object. -/
def setZ (self : Magnetic_Field α) (z : α) : Magnetic_Field α :=
  { self with toField := self.toField.setZ z }

/-- `void calculateMagneticField(double I, double r)`: the object after the call. -/
def calculateMagneticField [Mul α] [Div α] [OfNat α 2] [OfNat α 4] [OfScientific α] [Cmath α]
    (self : Magnetic_Field α) (I r : α) : Magnetic_Field α :=
  { self with calculatedB := (mu_0 * I) / (2 * M_PI * r) }

/-- `double getCalculatedB() const` -/
def getCalculatedB (self : Magnetic_Field α) : α := self.calculatedB

/-- `Magnetic_Field operator+(const Magnetic_Field &other) const`; the returned object is
built on storage whose `calculatedB` holds `mem`. -/
def add [Add α] (self other : Magnetic_Field α) (mem : α) : Magnetic_Field α :=
  ctor3 (self.getX + other.getX) (self.getY + other.getY) (self.getZ + other.getZ) mem

/-- The call `a + b` on two objects of a store `st` of live objects, named by their
positions; see `Electric_Field.addCall`. -/
def addCall [Add α] (st : List (Magnetic_Field α)) (a b : Nat) (mem : α) :
    Option (List (Magnetic_Field α) × Nat) :=
  match st[a]?, st[b]? with
  | some x, some y => some (st ++ [x.add y mem], st.length)
  | _, _ => none

end Magnetic_Field

end Program

/-! ## The objects of `main` -/

/-- `Electric_Field e1(1.0, 2.0, 3.0);` on storage whose `calculatedE` holds `mem`. -/
def main_e1 (mem : F64) : Electric_Field F64 := Electric_Field.ctor3 1.0 2.0 3.0 mem

/-- `Electric_Field e2(4.0, 5.0, 6.0);` on storage whose `calculatedE` holds `mem`. -/
def main_e2 (mem : F64) : Electric_Field F64 := Electric_Field.ctor3 4.0 5.0 6.0 mem

/-- `Magnetic_Field b1(7.0, 8.0, 9.0);` on storage whose `calculatedB` holds `mem`. -/
def main_b1 (mem : F64) : Magnetic_Field F64 := Magnetic_Field.ctor3 7.0 8.0 9.0 mem

/-- `Magnetic_Field b2(10.0, 11.0, 12.0);` on storage whose `calculatedB` holds `mem`. -/
def main_b2 (mem : F64) : Magnetic_Field F64 := Magnetic_Field.ctor3 10.0 11.0 12.0 mem

/-- The two `Electric_Field` objects alive at `e1 + e2` in `main`: `e1` after
`e1.calculateElectricField(Q, r)` with `Q = 1e-9`, `r = 0.1`, and `e2`, whose storage
held `mem`. -/
def main_electric (mem : F64) : List (Electric_Field F64) :=
  [(main_e1 mem).calculateElectricField 1e-9 0.1, main_e2 mem]

/-- The two `Magnetic_Field` objects alive at `b1 + b2` in `main`: `b1` after
`b1.calculateMagneticField(I, r)` with `I = 1.0`, `r = 0.1`, and `b2`, whose storage
held `mem`. -/
def main_magnetic (mem : F64) : List (Magnetic_Field F64) :=
  [(main_b1 mem).calculateMagneticField 1.0 0.1, main_b2 mem]

/-! ## Console output -/

namespace F64

/-- Number of decimal digits of `n`, by division by ten; `fuel` bounds the number of steps. -/
def decAux : Nat → Nat → Nat
  | 0, _ => 0
  | fuel + 1, n => if n = 0 then 0 else decAux fuel (n / 10) + 1

/-- Position of the leading decimal digit of `n` (`0` for `n = 0`). -/
def ilog10 (n : Nat) : Nat := decAux n n - 1

/-- The character of a decimal digit. -/
def digit (d : Nat) : Char :=
  match d with
  | 0 => '0' | 1 => '1' | 2 => '2' | 3 => '3' | 4 => '4'
  | 5 => '5' | 6 => '6' | 7 => '7' | 8 => '8' | _ => '9'

/-- The last `k` decimal digits of `n`, most significant first. -/
def digits : Nat → Nat → List Char
  | 0, _ => []
  | k + 1, n => digits k (n / 10) ++ [digit (n % 10)]

/-- Drop the zeros that end a digit sequence. -/
def stripZeros (l : List Char) : List Char :=
  (l.reverse.dropWhile (fun c => c == '0')).reverse

/-- Integer digits `ip` and fraction digits `fp`, with a point only before a fraction. -/
def withPoint (ip fp : List Char) : List Char :=
  if fp.isEmpty then ip else ip ++ '.' :: fp

/-- The characters `std::ostream::operator<<(double)` writes on a stream in its initial
state (precision 6, no `floatfield` flag), that is the `printf` conversion `%g`: six
significant digits, rounded to nearest with ties to even, scientific style when the
decimal exponent is below `-4` or at least `6`, and no zeros after the last nonzero
fraction digit.  A NaN prints as `nan`, or `-nan` when its sign bit is set. -/
def put : F64 → String
  | nan s _ _ => if s then "-nan" else "nan"
  | inf s => if s then "-inf" else "inf"
  | fin s m e =>
    let sign := if s then "-" else ""
    if m = 0 then sign ++ "0" else
    let n := num m e
    let d := den e
    let x0 : Int := (ilog10 n : Int) - (ilog10 d : Int)
    let ge : Bool := if 0 ≤ x0 then d * 10 ^ x0.toNat ≤ n else d ≤ n * 10 ^ (-x0).toNat
    let x1 := if ge then x0 else x0 - 1
    let k : Int := 5 - x1
    let nn := if 0 ≤ k then n * 10 ^ k.toNat else n
    let dd := if 0 ≤ k then d else d * 10 ^ (-k).toNat
    let q := nn / dd
    let r := nn % dd
    let q1 := if dd < 2 * r ∨ (2 * r = dd ∧ q % 2 = 1) then q + 1 else q
    let x := if q1 = 10 ^ 6 then x1 + 1 else x1
    let ds := digits 6 (if q1 = 10 ^ 6 then 10 ^ 5 else q1)
    if x < -4 ∨ 6 ≤ x then
      let ex := x.natAbs
      let mant := withPoint (ds.take 1) (stripZeros (ds.drop 1))
      sign ++ String.mk mant ++ "e" ++ (if x < 0 then "-" else "+")
        ++ String.mk (if ex < 100 then digits 2 ex else digits 3 ex)
    else if 0 ≤ x then
      sign ++ String.mk (withPoint (ds.take (x.toNat + 1)) (stripZeros (ds.drop (x.toNat + 1))))
    else
      sign ++ String.mk (withPoint ['0'] (List.replicate ((-x).toNat - 1) '0' ++ stripZeros ds))

/-- Whether the datum is a NaN (`std::isnan`). -/
def isNaN : F64 → Bool
  | nan _ _ _ => true
  | _ => false

/-- Whether the datum is an infinity (`std::isinf`). -/
def isInf : F64 → Bool
  | inf _ => true
  | _ => false

/-- The zero with sign bit `neg`: `0.0` for `false`, `-0.0` for `true`. -/
def zero (neg : Bool) : F64 := fin neg 0 (-1074)

/-- The datum is one of the binary64 encodings: a NaN with a payload below `2^51` that
is not zero if the NaN is signalling, an infinity, or a finite number with a significand
below `2^53`, an exponent from `-1074` to `971`, and the leading bit set unless the
exponent is the least one. -/
def Canonical : F64 → Prop
  | nan _ sig p => p < 2 ^ 51 ∧ (sig = false ∨ p ≠ 0)
  | inf _ => True
  | fin _ m e => m < 2 ^ 53 ∧ -1074 ≤ e ∧ e ≤ 971 ∧ (2 ^ 52 ≤ m ∨ e = -1074)

instance : DecidablePred Canonical := fun x =>
  match x with
  | nan _ sig p => inferInstanceAs (Decidable (p < 2 ^ 51 ∧ (sig = false ∨ p ≠ 0)))
  | inf _ => isTrue trivial
  | fin _ m e =>
    inferInstanceAs (Decidable (m < 2 ^ 53 ∧ -1074 ≤ e ∧ e ≤ 971 ∧ (2 ^ 52 ≤ m ∨ e = -1074)))

/-- The datum with a negative zero replaced by the positive zero. -/
def dropNegZero (x : F64) : F64 := if x = zero true then zero false else x

end F64

/-- The characters that `std::ostream::operator<<` writes for a number of type `α`. -/
class Ostream (α : Type) where
  put : α → String

instance : Ostream F64 := ⟨F64.put⟩

/-- The characters `std::endl` writes (the flush has no effect on the text). -/
def endl : String := "\n"

/-- `void printMagnitude() const`, a member of `Field`: the text of `std::cout` after the
call, given the text before it. -/
def Field.printMagnitude {α : Type} [Ostream α] (self : Field α) (cout : String) : String :=
  cout ++ "Components: (" ++ Ostream.put self.value0 ++ ", " ++ Ostream.put self.value1
    ++ ", " ++ Ostream.put self.value2 ++ ")" ++ endl

/-- `friend std::ostream& operator<<(std::ostream &os, const Electric_Field &e)`: the
text of `os` after the insertion. -/
def Electric_Field.put {α : Type} [Ostream α] (os : String) (e : Electric_Field α) : String :=
  os ++ "Electric Field Components: (" ++ Ostream.put e.getX ++ ", " ++ Ostream.put e.getY
    ++ ", " ++ Ostream.put e.getZ ++ ")"

/-- `friend std::ostream& operator<<(std::ostream &os, const Magnetic_Field &b)`: the
text of `os` after the insertion. -/
def Magnetic_Field.put {α : Type} [Ostream α] (os : String) (b : Magnetic_Field α) : String :=
  os ++ "Magnetic Field Components: (" ++ Ostream.put b.getX ++ ", " ++ Ostream.put b.getY
    ++ ", " ++ Ostream.put b.getZ ++ ")"

theorem F64.add_comm_fin (s t : Bool) (m k : Nat) (e f : Int) :
    F64.add (F64.fin s m e) (F64.fin t k f) = F64.add (F64.fin t k f) (F64.fin s m e) := by
  simp only [F64.add]
  rw [Nat.mul_comm (F64.den f) (F64.den e)]
  by_cases hst : s = t
  · subst hst
    simp [Nat.add_comm]
  · have hts : ¬ t = s := fun h => hst h.symm
    rw [if_neg hst, if_neg hts]
    rcases Nat.lt_trichotomy (F64.num m e * F64.den f) (F64.num k f * F64.den e) with h | h | h
    · rw [if_neg (Nat.ne_of_lt h), if_neg (Nat.not_lt_of_gt h),
        if_neg (Nat.ne_of_gt h), if_pos h]
    · rw [if_pos h, if_pos h.symm]
    · rw [if_neg (Nat.ne_of_gt h), if_pos h,
        if_neg (Nat.ne_of_lt h), if_neg (Nat.not_lt_of_gt h)]

/-- Two operands that are not both NaNs give the same sum in either order. -/
theorem F64.add_comm_of_not_both_nan (a b : F64)
    (h : a.isNaN = false ∨ b.isNaN = false) : a + b = b + a := by
  show F64.add a b = F64.add b a
  cases a <;> cases b
  case nan.nan => simp [F64.isNaN] at h
  case fin.fin => exact F64.add_comm_fin _ _ _ _ _ _
  case inf.inf s t =>
    by_cases h1 : s = t
    · subst h1; rfl
    · have h2 : ¬ t = s := fun h3 => h1 h3.symm
      simp [F64.add, h1, h2]
  all_goals rfl

/-! ## Addition of fields -/

/-- C1: for all operands, each component of `a + b` is the sum of the operands'
components, for `Electric_Field` and for `Magnetic_Field`, on every number type and
whatever the storage of the sum held. -/
theorem add_componentwise {α : Type} [Add α] (a b : Electric_Field α)
    (c d : Magnetic_Field α) (mem : α) :
    ((a.add b mem).getX = a.getX + b.getX ∧ (a.add b mem).getY = a.getY + b.getY ∧
      (a.add b mem).getZ = a.getZ + b.getZ) ∧
    ((c.add d mem).getX = c.getX + d.getX ∧ (c.add d mem).getY = c.getY + d.getY ∧
      (c.add d mem).getZ = c.getZ + d.getZ) :=
  ⟨⟨rfl, rfl, rfl⟩, ⟨rfl, rfl, rfl⟩⟩

/-- C2, the claim as stated fails: with x components two quiet NaNs of payloads 1 and 2,
`a + b` has the NaN of `a` and `b + a` the NaN of `b` as x component. -/
theorem add_not_commutative_on_nans :
    ¬ (((Electric_Field.ctor3 (F64.nan false false 1) 0.0 0.0 0.0 : Electric_Field F64).add
          (Electric_Field.ctor3 (F64.nan false false 2) 0.0 0.0 0.0) 0.0).getX
        = ((Electric_Field.ctor3 (F64.nan false false 2) 0.0 0.0 0.0 : Electric_Field F64).add
          (Electric_Field.ctor3 (F64.nan false false 1) 0.0 0.0 0.0) 0.0).getX ∧
      ((Electric_Field.ctor3 (F64.nan false false 1) 0.0 0.0 0.0 : Electric_Field F64).add
          (Electric_Field.ctor3 (F64.nan false false 2) 0.0 0.0 0.0) 0.0).getY
        = ((Electric_Field.ctor3 (F64.nan false false 2) 0.0 0.0 0.0 : Electric_Field F64).add
          (Electric_Field.ctor3 (F64.nan false false 1) 0.0 0.0 0.0) 0.0).getY ∧
      ((Electric_Field.ctor3 (F64.nan false false 1) 0.0 0.0 0.0 : Electric_Field F64).add
          (Electric_Field.ctor3 (F64.nan false false 2) 0.0 0.0 0.0) 0.0).getZ
        = ((Electric_Field.ctor3 (F64.nan false false 2) 0.0 0.0 0.0 : Electric_Field F64).add
          (Electric_Field.ctor3 (F64.nan false false 1) 0.0 0.0 0.0) 0.0).getZ) := by
  decide

/-- C2, amended: on binary64, each component in which the operands are not both NaNs is
the same double in `a + b` and in `b + a`, for `Electric_Field` and for
`Magnetic_Field`, whatever the storage of the sums held. -/
theorem add_commutative_of_not_both_nan (a b : Electric_Field F64)
    (c d : Magnetic_Field F64) (mem mem1 : F64) :
    ((a.getX.isNaN = false ∨ b.getX.isNaN = false →
        (a.add b mem).getX = (b.add a mem1).getX) ∧
      (a.getY.isNaN = false ∨ b.getY.isNaN = false →
        (a.add b mem).getY = (b.add a mem1).getY) ∧
      (a.getZ.isNaN = false ∨ b.getZ.isNaN = false →
        (a.add b mem).getZ = (b.add a mem1).getZ)) ∧
    ((c.getX.isNaN = false ∨ d.getX.isNaN = false →
        (c.add d mem).getX = (d.add c mem1).getX) ∧
      (c.getY.isNaN = false ∨ d.getY.isNaN = false →
        (c.add d mem).getY = (d.add c mem1).getY) ∧
      (c.getZ.isNaN = false ∨ d.getZ.isNaN = false →
        (c.add d mem).getZ = (d.add c mem1).getZ)) :=
  ⟨⟨F64.add_comm_of_not_both_nan _ _, F64.add_comm_of_not_both_nan _ _,
      F64.add_comm_of_not_both_nan _ _⟩,
    ⟨F64.add_comm_of_not_both_nan _ _, F64.add_comm_of_not_both_nan _ _,
      F64.add_comm_of_not_both_nan _ _⟩⟩

/-- C2, amended, at the operands of `main`: `e1 + e2` against `e2 + e1` and `b1 + b2`
against `b2 + b1`, all components finite. -/
theorem add_commutative_of_not_both_nan_witness :
    (((main_e1 0.0).getX.isNaN = false ∨ (main_e2 0.0).getX.isNaN = false) ∧
      ((main_e1 0.0).getY.isNaN = false ∨ (main_e2 0.0).getY.isNaN = false) ∧
      ((main_e1 0.0).getZ.isNaN = false ∨ (main_e2 0.0).getZ.isNaN = false) ∧
      ((main_b1 0.0).getX.isNaN = false ∨ (main_b2 0.0).getX.isNaN = false) ∧
      ((main_b1 0.0).getY.isNaN = false ∨ (main_b2 0.0).getY.isNaN = false) ∧
      ((main_b1 0.0).getZ.isNaN = false ∨ (main_b2 0.0).getZ.isNaN = false)) ∧
    (((main_e1 0.0).add (main_e2 0.0) 0.0).getX = ((main_e2 0.0).add (main_e1 0.0) 0.0).getX ∧
      ((main_e1 0.0).add (main_e2 0.0) 0.0).getY = ((main_e2 0.0).add (main_e1 0.0) 0.0).getY ∧
      ((main_e1 0.0).add (main_e2 0.0) 0.0).getZ
        = ((main_e2 0.0).add (main_e1 0.0) 0.0).getZ) ∧
    (((main_b1 0.0).add (main_b2 0.0) 0.0).getX = ((main_b2 0.0).add (main_b1 0.0) 0.0).getX ∧
      ((main_b1 0.0).add (main_b2 0.0) 0.0).getY = ((main_b2 0.0).add (main_b1 0.0) 0.0).getY ∧
      ((main_b1 0.0).add (main_b2 0.0) 0.0).getZ
        = ((main_b2 0.0).add (main_b1 0.0) 0.0).getZ) :=
  ⟨⟨Or.inl (by decide), Or.inl (by decide), Or.inl (by decide), Or.inl (by decide),
      Or.inl (by decide), Or.inl (by decide)⟩,
    ⟨(add_commutative_of_not_both_nan (main_e1 0.0) (main_e2 0.0) (main_b1 0.0)
        (main_b2 0.0) 0.0 0.0).1.1 (Or.inl (by decide)),
      (add_commutative_of_not_both_nan (main_e1 0.0) (main_e2 0.0) (main_b1 0.0)
        (main_b2 0.0) 0.0 0.0).1.2.1 (Or.inl (by decide)),
      (add_commutative_of_not_both_nan (main_e1 0.0) (main_e2 0.0) (main_b1 0.0)
        (main_b2 0.0) 0.0 0.0).1.2.2 (Or.inl (by decide))⟩,
    ⟨(add_commutative_of_not_both_nan (main_e1 0.0) (main_e2 0.0) (main_b1 0.0)
        (main_b2 0.0) 0.0 0.0).2.1 (Or.inl (by decide)),
      (add_commutative_of_not_both_nan (main_e1 0.0) (main_e2 0.0) (main_b1 0.0)
        (main_b2 0.0) 0.0 0.0).2.2.1 (Or.inl (by decide)),
      (add_commutative_of_not_both_nan (main_e1 0.0) (main_e2 0.0) (main_b1 0.0)
        (main_b2 0.0) 0.0 0.0).2.2.2 (Or.inl (by decide))⟩⟩

/-! ## The two physics formulas -/

/-- C3: after `calculateElectricField(Q, r)` the getter returns
`Q / (4 * M_PI * r * r * 8.854187817e-12)` in the arithmetic of the number type,
whatever the object held before, so a later call replaces the value of an earlier one;
in an exact ordered field that value is `Q / (4 * M_PI * r ^ 2 * 8.854187817e-12)`. -/
theorem calculateElectricField_stores :
    (∀ (α : Type) [Mul α] [Div α] [OfNat α 4] [OfScientific α] [Cmath α]
        (e : Electric_Field α) (Q r : α),
      (e.calculateElectricField Q r).getCalculatedE
          = Q / (4 * M_PI * r * r * 8.854187817e-12) ∧
      (∀ Q0 r0 : α, ((e.calculateElectricField Q0 r0).calculateElectricField Q r).getCalculatedE
          = Q / (4 * M_PI * r * r * 8.854187817e-12))) ∧
    (∀ (K : Type) [LinearOrderedField K] [Cmath K] (e : Electric_Field K) (Q r : K),
      (e.calculateElectricField Q r).getCalculatedE
          = Q / (4 * M_PI * r ^ 2 * 8.854187817e-12)) := by
  refine ⟨fun α _ _ _ _ _ e Q r => ⟨rfl, fun _ _ => rfl⟩, fun K _ _ e Q r => ?_⟩
  show Q / (4 * M_PI * r * r * epsilon_0) = _
  have h : (4 * M_PI * r * r * epsilon_0 : K) = 4 * M_PI * r ^ 2 * 8.854187817e-12 := by
    show (4 * M_PI * r * r * 8.854187817e-12 : K) = _
    rw [pow_two, mul_assoc (4 * M_PI) r r]
  rw [h]

/-- C4: after `calculateMagneticField(I, r)` the getter returns
`(4 * M_PI * 1e-7 * I) / (2 * M_PI * r)` in the arithmetic of the number type, whatever
the object held before, so a later call replaces the value of an earlier one. -/
theorem calculateMagneticField_stores {α : Type} [Mul α] [Div α] [OfNat α 2] [OfNat α 4]
    [OfScientific α] [Cmath α] (b : Magnetic_Field α) (I r : α) :
    (b.calculateMagneticField I r).getCalculatedB
        = (4 * M_PI * 1e-7 * I) / (2 * M_PI * r) ∧
    (∀ I0 r0 : α, ((b.calculateMagneticField I0 r0).calculateMagneticField I r).getCalculatedB
        = (4 * M_PI * 1e-7 * I) / (2 * M_PI * r)) :=
  ⟨rfl, fun _ _ => rfl⟩

/-- The binary64 value of `(mu_0 * 1.0) / (2 * M_PI * 0.1)` is the literal `2e-6`. -/
theorem F64.ampere_demo : ((mu_0 * 1.0) / (2 * M_PI * 0.1) : F64) = 2e-6 := by decide

/-- The binary64 value of `1e-9 / (4 * M_PI * 0.1 * 0.1 * epsilon_0)`. -/
theorem F64.coulomb_demo :
    (1e-9 / (4 * M_PI * 0.1 * 0.1 * epsilon_0) : F64) = F64.fin false 7905534156914145 (-43) := by
  decide

/-- C5: on binary64, `calculateMagneticField(1.0, 0.1)` followed by `getCalculatedB()`
gives exactly the `double` that the literal `2e-6` denotes, on every object. -/
theorem calculateMagneticField_demo_exact (b : Magnetic_Field F64) :
    (b.calculateMagneticField 1.0 0.1).getCalculatedB = 2e-6 := by
  show ((mu_0 * 1.0) / (2 * M_PI * 0.1) : F64) = 2e-6
  exact F64.ampere_demo

/-- C6: on binary64, `calculateElectricField(1e-9, 0.1)` followed by `getCalculatedE()`
gives a finite value within relative tolerance `1e-3` of `898.755`, measured against
`898.755` and against the value itself, on every object. -/
theorem calculateElectricField_demo_close (e : Electric_Field F64) :
    ∃ v : F64, (e.calculateElectricField 1e-9 0.1).getCalculatedE = v ∧
      v.isFinite = true ∧
      |v.toRat - 898.755| ≤ 1e-3 * 898.755 ∧
      |v.toRat - 898.755| ≤ 1e-3 * |v.toRat| := by
  refine ⟨F64.fin false 7905534156914145 (-43), ?_, rfl, ?_, ?_⟩
  · show (1e-9 / (4 * M_PI * 0.1 * 0.1 * epsilon_0) : F64) = _
    exact F64.coulomb_demo
  · simp only [F64.toRat]
    rw [abs_le]
    constructor <;> norm_num
  · simp only [F64.toRat]
    rw [abs_of_pos (show (0 : ℚ) < (if false = true then -1 else 1) *
      ((7905534156914145 : ℕ) : ℚ) * 2 ^ (-43 : ℤ) by norm_num), abs_le]
    constructor <;> norm_num

/-! ## Constructors, getters and setters -/

/-- C7: a default-constructed `Field`, `Electric_Field` or `Magnetic_Field` has all three
components equal to the literal `0.0`, and one constructed from `(x, y, z)` returns
`x`, `y` and `z` from `getX`, `getY` and `getZ`, whatever its storage held. -/
theorem constructors_components {α : Type} [OfScientific α] (x y z mem : α) :
    ((Field.ctor : Field α).getX = 0.0 ∧ (Field.ctor : Field α).getY = 0.0 ∧
      (Field.ctor : Field α).getZ = 0.0) ∧
    ((Electric_Field.ctor mem).getX = 0.0 ∧ (Electric_Field.ctor mem).getY = 0.0 ∧
      (Electric_Field.ctor mem).getZ = 0.0) ∧
    ((Magnetic_Field.ctor mem).getX = 0.0 ∧ (Magnetic_Field.ctor mem).getY = 0.0 ∧
      (Magnetic_Field.ctor mem).getZ = 0.0) ∧
    ((Field.ctor3 x y z).getX = x ∧ (Field.ctor3 x y z).getY = y ∧
      (Field.ctor3 x y z).getZ = z) ∧
    ((Electric_Field.ctor3 x y z mem).getX = x ∧ (Electric_Field.ctor3 x y z mem).getY = y ∧
      (Electric_Field.ctor3 x y z mem).getZ = z) ∧
    ((Magnetic_Field.ctor3 x y z mem).getX = x ∧ (Magnetic_Field.ctor3 x y z mem).getY = y ∧
      (Magnetic_Field.ctor3 x y z mem).getZ = z) :=
  ⟨⟨rfl, rfl, rfl⟩, ⟨rfl, rfl, rfl⟩, ⟨rfl, rfl, rfl⟩, ⟨rfl, rfl, rfl⟩, ⟨rfl, rfl, rfl⟩,
    ⟨rfl, rfl, rfl⟩⟩

/-- C8: on a `Field`, an `Electric_Field` or a `Magnetic_Field`, `setX(v)` makes `getX()`
return `v` and leaves `getY()` and `getZ()` as they were; likewise `setY` leaves
`getX()`, `getZ()` and `setZ` leaves `getX()`, `getY()`. -/
theorem setters_frame {α : Type} (f : Field α) (e : Electric_Field α)
    (b : Magnetic_Field α) (v : α) :
    (((f.setX v).getX = v ∧ (f.setX v).getY = f.getY ∧ (f.setX v).getZ = f.getZ) ∧
      ((f.setY v).getY = v ∧ (f.setY v).getX = f.getX ∧ (f.setY v).getZ = f.getZ) ∧
      ((f.setZ v).getZ = v ∧ (f.setZ v).getX = f.getX ∧ (f.setZ v).getY = f.getY)) ∧
    (((e.setX v).getX = v ∧ (e.setX v).getY = e.getY ∧ (e.setX v).getZ = e.getZ) ∧
      ((e.setY v).getY = v ∧ (e.setY v).getX = e.getX ∧ (e.setY v).getZ = e.getZ) ∧
      ((e.setZ v).getZ = v ∧ (e.setZ v).getX = e.getX ∧ (e.setZ v).getY = e.getY)) ∧
    (((b.setX v).getX = v ∧ (b.setX v).getY = b.getY ∧ (b.setX v).getZ = b.getZ) ∧
      ((b.setY v).getY = v ∧ (b.setY v).getX = b.getX ∧ (b.setY v).getZ = b.getZ) ∧
      ((b.setZ v).getZ = v ∧ (b.setZ v).getX = b.getX ∧ (b.setZ v).getY = b.getY)) :=
  ⟨⟨⟨rfl, rfl, rfl⟩, ⟨rfl, rfl, rfl⟩, ⟨rfl, rfl, rfl⟩⟩,
    ⟨⟨rfl, rfl, rfl⟩, ⟨rfl, rfl, rfl⟩, ⟨rfl, rfl, rfl⟩⟩,
    ⟨⟨rfl, rfl, rfl⟩, ⟨rfl, rfl, rfl⟩, ⟨rfl, rfl, rfl⟩⟩⟩

/-! ## The calculated scalar and the operands of a sum -/

/-- C9, the claim as stated fails: the sum `e1 + e2` built on storage that held `1.0`
has `calculatedE = 1.0`, and an `Electric_Field` freshly constructed on storage that
held `2.0` has `calculatedE = 2.0`; a fresh object has no one value of the scalar. -/
theorem add_calculated_not_fixed :
    ¬ (((main_e1 0.0).add (main_e2 0.0) 1.0).getCalculatedE
      = (Electric_Field.ctor3 5.0 7.0 9.0 2.0 : Electric_Field F64).getCalculatedE) := by
  decide

/-- C9, amended: `operator+` does not write the scalar of the sum: the `calculatedE` of
`a + b` is the double that the storage of the sum held, as it is for an object that a
constructor builds on that storage, and the sum is the same object whatever
`calculatedE` the operands hold; likewise `calculatedB` for `Magnetic_Field`. -/
theorem add_calculated_unwritten {α : Type} [Add α] [OfScientific α]
    (a b : Electric_Field α) (c d : Magnetic_Field α) (x y z mem : α) :
    ((a.add b mem).getCalculatedE = mem ∧
      (a.add b mem).getCalculatedE = (Electric_Field.ctor3 x y z mem).getCalculatedE ∧
      (a.add b mem).getCalculatedE = (Electric_Field.ctor mem).getCalculatedE ∧
      (∀ u v : α,
        Electric_Field.add { a with calculatedE := u } { b with calculatedE := v } mem
          = a.add b mem)) ∧
    ((c.add d mem).getCalculatedB = mem ∧
      (c.add d mem).getCalculatedB = (Magnetic_Field.ctor3 x y z mem).getCalculatedB ∧
      (c.add d mem).getCalculatedB = (Magnetic_Field.ctor mem).getCalculatedB ∧
      (∀ u v : α,
        Magnetic_Field.add { c with calculatedB := u } { d with calculatedB := v } mem
          = c.add d mem)) :=
  ⟨⟨rfl, rfl, rfl, fun _ _ => rfl⟩, ⟨rfl, rfl, rfl, fun _ _ => rfl⟩⟩

/-- Appending to a store leaves every position that named an object naming the same one. -/
theorem getElem?_append_of_some {β : Type} (st extra : List β) (i : Nat) (x : β)
    (h : st[i]? = some x) : (st ++ extra)[i]? = some x := by
  obtain ⟨hi, hx⟩ := List.getElem?_eq_some.mp h
  rw [List.getElem?_append_left hi]
  exact h

/-- C10: the call `a + b` on live objects `x` (at `a`) and `y` (at `b`) completes, leaves
`x` at `a` and `y` at `b`, components and calculated scalar alike, and every other live
object where it was, and puts the sum `x + y` at a position that named no object
before; for `Electric_Field` and for `Magnetic_Field`, also when `a = b`, whatever the
storage of the sum held. -/
theorem add_leaves_operands {α : Type} [Add α]
    (st : List (Electric_Field α)) (a b : Nat) (x y : Electric_Field α)
    (mt : List (Magnetic_Field α)) (c d : Nat) (p q : Magnetic_Field α) (mem : α)
    (ha : st[a]? = some x) (hb : st[b]? = some y)
    (hc : mt[c]? = some p) (hd : mt[d]? = some q) :
    (∃ (st1 : List (Electric_Field α)) (r : Nat),
      Electric_Field.addCall st a b mem = some (st1, r) ∧
      st1[a]? = some x ∧ st1[b]? = some y ∧
      (∀ (i : Nat) (o : Electric_Field α), st[i]? = some o → st1[i]? = some o) ∧
      st[r]? = none ∧ st1[r]? = some (x.add y mem)) ∧
    (∃ (mt1 : List (Magnetic_Field α)) (r : Nat),
      Magnetic_Field.addCall mt c d mem = some (mt1, r) ∧
      mt1[c]? = some p ∧ mt1[d]? = some q ∧
      (∀ (i : Nat) (o : Magnetic_Field α), mt[i]? = some o → mt1[i]? = some o) ∧
      mt[r]? = none ∧ mt1[r]? = some (p.add q mem)) := by
  constructor
  · refine ⟨st ++ [x.add y mem], st.length, ?_, getElem?_append_of_some _ _ _ _ ha,
      getElem?_append_of_some _ _ _ _ hb, fun i o h => getElem?_append_of_some _ _ _ _ h,
      ?_, ?_⟩
    · simp [Electric_Field.addCall, ha, hb]
    · simp
    · simp
  · refine ⟨mt ++ [p.add q mem], mt.length, ?_, getElem?_append_of_some _ _ _ _ hc,
      getElem?_append_of_some _ _ _ _ hd, fun i o h => getElem?_append_of_some _ _ _ _ h,
      ?_, ?_⟩
    · simp [Magnetic_Field.addCall, hc, hd]
    · simp
    · simp

/-- C10 at the objects of `main`: the calls `e1 + e2` and `b1 + b2`, made after
`e1.calculateElectricField(1e-9, 0.1)` and `b1.calculateMagneticField(1.0, 0.1)`. -/
theorem add_leaves_operands_witness :
    ((main_electric 0.0)[0]? = some ((main_e1 0.0).calculateElectricField 1e-9 0.1) ∧
      (main_electric 0.0)[1]? = some (main_e2 0.0) ∧
      (main_magnetic 0.0)[0]? = some ((main_b1 0.0).calculateMagneticField 1.0 0.1) ∧
      (main_magnetic 0.0)[1]? = some (main_b2 0.0)) ∧
    (∃ (st1 : List (Electric_Field F64)) (r : Nat),
      Electric_Field.addCall (main_electric 0.0) 0 1 0.0 = some (st1, r) ∧
      st1[0]? = some ((main_e1 0.0).calculateElectricField 1e-9 0.1) ∧
      st1[1]? = some (main_e2 0.0) ∧
      (∀ (i : Nat) (o : Electric_Field F64),
        (main_electric 0.0)[i]? = some o → st1[i]? = some o) ∧
      (main_electric 0.0)[r]? = none ∧
      st1[r]? = some (((main_e1 0.0).calculateElectricField 1e-9 0.1).add (main_e2 0.0) 0.0)) ∧
    (∃ (mt1 : List (Magnetic_Field F64)) (r : Nat),
      Magnetic_Field.addCall (main_magnetic 0.0) 0 1 0.0 = some (mt1, r) ∧
      mt1[0]? = some ((main_b1 0.0).calculateMagneticField 1.0 0.1) ∧
      mt1[1]? = some (main_b2 0.0) ∧
      (∀ (i : Nat) (o : Magnetic_Field F64),
        (main_magnetic 0.0)[i]? = some o → mt1[i]? = some o) ∧
      (main_magnetic 0.0)[r]? = none ∧
      mt1[r]? = some (((main_b1 0.0).calculateMagneticField 1.0 0.1).add (main_b2 0.0) 0.0)) :=
  ⟨⟨rfl, rfl, rfl, rfl⟩,
    add_leaves_operands (main_electric 0.0) 0 1 _ _ (main_magnetic 0.0) 0 1 _ _ 0.0
      rfl rfl rfl rfl⟩

/-! ## Console output of the classes and of `main` -/

/-- The components of `e1 + e2` and of `b1 + b2` in `main`. -/
theorem F64.main_sums :
    ((1.0 : F64) + 4.0 = 5.0 ∧ (2.0 : F64) + 5.0 = 7.0 ∧ (3.0 : F64) + 6.0 = 9.0) ∧
    ((7.0 : F64) + 10.0 = 17.0 ∧ (8.0 : F64) + 11.0 = 19.0 ∧ (9.0 : F64) + 12.0 = 21.0) := by
  decide

/-- C12: inserting an `Electric_Field` into a stream appends
`Electric Field Components: (`, the x, y and z components in that order separated by
`, `, and `)`, and the text is the same whatever `calculatedE` holds; likewise for
`Magnetic_Field` with `Magnetic Field Components: (` and `calculatedB`.  For the sums
of `main` the texts are `(5, 7, 9)` and `(17, 19, 21)` after the prefixes. -/
theorem stream_representation {α : Type} [Ostream α] (os : String)
    (e : Electric_Field α) (b : Magnetic_Field α) (mem : F64) :
    (Electric_Field.put os e = os ++ "Electric Field Components: (" ++ Ostream.put e.getX
        ++ ", " ++ Ostream.put e.getY ++ ", " ++ Ostream.put e.getZ ++ ")" ∧
      (∀ u : α, Electric_Field.put os { e with calculatedE := u }
        = Electric_Field.put os e)) ∧
    (Magnetic_Field.put os b = os ++ "Magnetic Field Components: (" ++ Ostream.put b.getX
        ++ ", " ++ Ostream.put b.getY ++ ", " ++ Ostream.put b.getZ ++ ")" ∧
      (∀ u : α, Magnetic_Field.put os { b with calculatedB := u }
        = Magnetic_Field.put os b)) ∧
    Electric_Field.put "" (((main_e1 mem).calculateElectricField 1e-9 0.1).add (main_e2 mem) mem)
      = "Electric Field Components: (5, 7, 9)" ∧
    Magnetic_Field.put "" (((main_b1 mem).calculateMagneticField 1.0 0.1).add (main_b2 mem) mem)
      = "Magnetic Field Components: (17, 19, 21)" := by
  refine ⟨⟨rfl, fun _ => rfl⟩, ⟨rfl, fun _ => rfl⟩, ?_, ?_⟩
  · show Electric_Field.put "" (Electric_Field.ctor3 ((1.0 : F64) + 4.0) ((2.0 : F64) + 5.0)
      ((3.0 : F64) + 6.0) mem) = _
    rw [F64.main_sums.1.1, F64.main_sums.1.2.1, F64.main_sums.1.2.2]
    show Electric_Field.put "" (Electric_Field.ctor3 (5.0 : F64) 7.0 9.0 0.0) = _
    decide
  · show Magnetic_Field.put "" (Magnetic_Field.ctor3 ((7.0 : F64) + 10.0) ((8.0 : F64) + 11.0)
      ((9.0 : F64) + 12.0) mem) = _
    rw [F64.main_sums.2.1, F64.main_sums.2.2.1, F64.main_sums.2.2.2]
    show Magnetic_Field.put "" (Magnetic_Field.ctor3 (17.0 : F64) 19.0 21.0 0.0) = _
    decide

/-- C13: `printMagnitude` appends `Components: (`, the x, y and z components in that
order separated by `, `, and `)` to the text of `std::cout`, then ends the line; on the
field with components (1, 2, 3), also as the base part of `e1` of `main`, the line
written is exactly `Components: (1, 2, 3)`. -/
theorem printMagnitude_text {α : Type} [Ostream α] (f : Field α) (cout : String)
    (mem : F64) :
    f.printMagnitude cout = cout ++ "Components: (" ++ Ostream.put f.getX ++ ", "
        ++ Ostream.put f.getY ++ ", " ++ Ostream.put f.getZ ++ ")" ++ endl ∧
    (Field.ctor3 1.0 2.0 3.0 : Field F64).printMagnitude "" = "Components: (1, 2, 3)" ++ endl ∧
    (main_e1 mem).printMagnitude "" = "Components: (1, 2, 3)" ++ endl := by
  have h : (Field.ctor3 1.0 2.0 3.0 : Field F64).printMagnitude ""
      = "Components: (1, 2, 3)" ++ endl := by decide
  exact ⟨rfl, h, h⟩

/-! ## Division by a zero distance -/

/-- A quotient by a zero of either sign is a NaN or an infinity. -/
theorem F64.div_zero_nan_or_inf (x : F64) (t : Bool) :
    (x / F64.zero t).isNaN = true ∨ (x / F64.zero t).isInf = true := by
  show (F64.div x (F64.fin t 0 (-1074))).isNaN = true ∨
    (F64.div x (F64.fin t 0 (-1074))).isInf = true
  cases x with
  | nan s g p => exact Or.inl rfl
  | inf s => exact Or.inr rfl
  | fin s m e =>
    by_cases hm : m = 0
    · subst hm; exact Or.inl rfl
    · right
      simp [F64.div, hm, F64.isInf]

/-- The denominator of Coulomb's formula at a zero distance of either sign is `0.0`. -/
theorem F64.coulomb_den_zero (s : Bool) :
    (4 * M_PI * F64.zero s * F64.zero s * epsilon_0 : F64) = F64.zero false := by
  cases s <;> decide

/-- The denominator of Ampere's formula at a zero distance is the zero of that sign. -/
theorem F64.ampere_den_zero (s : Bool) : (2 * M_PI * F64.zero s : F64) = F64.zero s := by
  cases s <;> decide

/-- C14: on binary64, for every `Q` and `I` (finite, infinite or NaN) and a distance
`0.0` or `-0.0`, both calls complete and the getter returns a stored value that is an
infinity or a NaN. -/
theorem calculate_at_zero_distance (e : Electric_Field F64) (b : Magnetic_Field F64)
    (Q I : F64) (s : Bool) :
    (∃ v : F64, (e.calculateElectricField Q (F64.zero s)).getCalculatedE = v ∧
      (v.isNaN = true ∨ v.isInf = true)) ∧
    (∃ v : F64, (b.calculateMagneticField I (F64.zero s)).getCalculatedB = v ∧
      (v.isNaN = true ∨ v.isInf = true)) ∧
    (0.0 : F64) = F64.zero false := by
  refine ⟨⟨_, rfl, ?_⟩, ⟨_, rfl, ?_⟩, by decide⟩
  · show ((Q / (4 * M_PI * F64.zero s * F64.zero s * epsilon_0)).isNaN = true ∨
      (Q / (4 * M_PI * F64.zero s * F64.zero s * epsilon_0)).isInf = true)
    rw [F64.coulomb_den_zero]
    exact F64.div_zero_nan_or_inf Q false
  · show (((mu_0 * I) / (2 * M_PI * F64.zero s)).isNaN = true ∨
      ((mu_0 * I) / (2 * M_PI * F64.zero s)).isInf = true)
    rw [F64.ampere_den_zero]
    exact F64.div_zero_nan_or_inf _ s

/-! ## What the calculations and the copy constructors leave alone -/

/-- C15: `calculateElectricField` and `calculateMagneticField` leave `getX()`, `getY()`
and `getZ()` as they were, for every object and all inputs, on every number type. -/
theorem calculate_frame {α : Type} [Mul α] [Div α] [OfNat α 2] [OfNat α 4]
    [OfScientific α] [Cmath α] (e : Electric_Field α) (b : Magnetic_Field α)
    (Q r I : α) :
    ((e.calculateElectricField Q r).getX = e.getX ∧
      (e.calculateElectricField Q r).getY = e.getY ∧
      (e.calculateElectricField Q r).getZ = e.getZ) ∧
    ((b.calculateMagneticField I r).getX = b.getX ∧
      (b.calculateMagneticField I r).getY = b.getY ∧
      (b.calculateMagneticField I r).getZ = b.getZ) :=
  ⟨⟨rfl, rfl, rfl⟩, ⟨rfl, rfl, rfl⟩⟩

/-- C16, the claim as stated fails: a copy of `e1` of `main`, taken after
`e1.calculateElectricField(1e-9, 0.1)` and built on storage that held the double
`1e-9 / (4 * M_PI * 0.1 * 0.1 * 8.854187817e-12)`, has the calculated scalar that the
source holds. -/
theorem copy_scalar_can_equal_source :
    ¬ ((Electric_Field.copy ((main_e1 0.0).calculateElectricField 1e-9 0.1)
          (1e-9 / (4 * M_PI * 0.1 * 0.1 * 8.854187817e-12))).getCalculatedE
        ≠ ((main_e1 0.0).calculateElectricField 1e-9 0.1).getCalculatedE) :=
  fun h => h rfl

/-- C16, amended: the copy of `s` is the object the three-argument constructor builds
from `s.getX()`, `s.getY()`, `s.getZ()` on the same storage: it has the components of
`s`, and its calculated scalar is the double its storage held, not copied from `s`, so
the copy is the same whatever `s` holds after `calculateElectricField` or
`calculateMagneticField`. -/
theorem copy_is_constructed {α : Type} [Mul α] [Div α] [OfNat α 2] [OfNat α 4]
    [OfScientific α] [Cmath α] (s : Electric_Field α) (t : Magnetic_Field α)
    (Q r I mem : α) :
    (Electric_Field.copy s mem = Electric_Field.ctor3 s.getX s.getY s.getZ mem ∧
      ((Electric_Field.copy s mem).getX = s.getX ∧ (Electric_Field.copy s mem).getY = s.getY ∧
        (Electric_Field.copy s mem).getZ = s.getZ) ∧
      (Electric_Field.copy s mem).getCalculatedE = mem ∧
      (Electric_Field.copy (s.calculateElectricField Q r) mem).getCalculatedE
        = (Electric_Field.ctor3 s.getX s.getY s.getZ mem).getCalculatedE ∧
      Electric_Field.copy (s.calculateElectricField Q r) mem = Electric_Field.copy s mem) ∧
    (Magnetic_Field.copy t mem = Magnetic_Field.ctor3 t.getX t.getY t.getZ mem ∧
      ((Magnetic_Field.copy t mem).getX = t.getX ∧ (Magnetic_Field.copy t mem).getY = t.getY ∧
        (Magnetic_Field.copy t mem).getZ = t.getZ) ∧
      (Magnetic_Field.copy t mem).getCalculatedB = mem ∧
      (Magnetic_Field.copy (t.calculateMagneticField I r) mem).getCalculatedB
        = (Magnetic_Field.ctor3 t.getX t.getY t.getZ mem).getCalculatedB ∧
      Magnetic_Field.copy (t.calculateMagneticField I r) mem = Magnetic_Field.copy t mem) :=
  ⟨⟨rfl, ⟨rfl, rfl, rfl⟩, rfl, rfl, rfl⟩, ⟨rfl, ⟨rfl, rfl, rfl⟩, rfl, rfl, rfl⟩⟩

/-! ## Rounding is exact on binary64 numbers -/

/-- Zero has no binary digit. -/
theorem F64.bitsAux_zero (fuel : Nat) : F64.bitsAux fuel 0 = 0 := by
  cases fuel <;> simp [F64.bitsAux]

/-- With enough fuel the digit count of a positive number is its binary logarithm plus one. -/
theorem F64.bitsAux_eq_log (fuel : Nat) :
    ∀ n : Nat, n ≠ 0 → n ≤ fuel → F64.bitsAux fuel n = Nat.log 2 n + 1 := by
  induction fuel with
  | zero => intro n hn hle; omega
  | succ f ih =>
    intro n hn hle
    rw [F64.bitsAux, if_neg hn]
    by_cases h2 : n / 2 = 0
    · rw [h2, F64.bitsAux_zero]
      have h1 : n = 1 := by omega
      subst h1
      simp
    · rw [ih (n / 2) h2 (by omega)]
      have hn2 : 2 ≤ n := by omega
      rw [Nat.log_of_one_lt_of_le (by norm_num) hn2]

/-- The leading digit position is the binary logarithm. -/
theorem F64.ilog2_eq_log (n : Nat) : F64.ilog2 n = Nat.log 2 n := by
  unfold F64.ilog2
  by_cases hn : n = 0
  · subst hn; simp [F64.bitsAux]
  · rw [F64.bitsAux_eq_log n n hn le_rfl]; simp

/-- Scaling by a power of two shifts the leading digit position. -/
theorem F64.ilog2_mul_pow (m i : Nat) (hm : m ≠ 0) :
    F64.ilog2 (m * 2 ^ i) = Nat.log 2 m + i := by
  rw [F64.ilog2_eq_log]
  induction i with
  | zero => simp
  | succ k ih =>
    rw [pow_succ, ← mul_assoc, Nat.log_mul_base (by norm_num) (by positivity), ih]
    omega

/-- The leading digit position of a power of two. -/
theorem F64.ilog2_pow (j : Nat) : F64.ilog2 (2 ^ j) = j := by
  rw [F64.ilog2_eq_log, Nat.log_pow (by norm_num)]


/-- Rounding is exact on a value that is a binary64 number: `m * 2^i / 2^j` with
`m * 2^(i - j)` an encoding rounds to that encoding. -/
theorem F64.round_pow2 (s : Bool) (m i j : Nat) (e : Int) (hm0 : m ≠ 0) (hm : m < 2 ^ 53)
    (he : e = (i : Int) - (j : Int)) (h1 : -1074 ≤ e) (h2 : e ≤ 971)
    (h3 : 2 ^ 52 ≤ m ∨ e = -1074) :
    F64.round s (m * 2 ^ i) (2 ^ j) = F64.fin s m e := by
  have hL1 : 2 ^ Nat.log 2 m ≤ m := Nat.pow_log_le_self 2 hm0
  have hL2 : Nat.log 2 m < 53 := Nat.log_lt_of_lt_pow hm0 hm
  have hL3 : 2 ^ 52 ≤ m → Nat.log 2 m = 52 := by
    intro h
    have : 52 ≤ Nat.log 2 m := (Nat.pow_le_iff_le_log (by norm_num) hm0).mp h
    omega
  obtain ⟨t, ht⟩ : ∃ t, Nat.log 2 m + t = 52 := ⟨52 - Nat.log 2 m, by omega⟩
  have hn : m * 2 ^ i ≠ 0 := by positivity
  have hq0 : 2 ^ 52 ≤ m * 2 ^ t := by
    calc 2 ^ 52 = 2 ^ Nat.log 2 m * 2 ^ t := by rw [← pow_add, ht]
      _ ≤ m * 2 ^ t := Nat.mul_le_mul_right _ hL1
  have hq0a : (if (0 : Int) ≤ ((Nat.log 2 m + i : Nat) : Int) - (j : Int) - 52
      then m * 2 ^ i / (2 ^ j * 2 ^ (((Nat.log 2 m + i : Nat) : Int) - (j : Int) - 52).toNat)
      else m * 2 ^ i * 2 ^ (-(((Nat.log 2 m + i : Nat) : Int) - (j : Int) - 52)).toNat / 2 ^ j)
      = m * 2 ^ t := by
    split_ifs with h0
    · obtain ⟨u, hu⟩ : ∃ u : Nat, (((Nat.log 2 m + i : Nat) : Int) - (j : Int) - 52) = u :=
        ⟨_, (Int.toNat_of_nonneg h0).symm⟩
      rw [hu, Int.toNat_ofNat]
      have hi : i = t + (j + u) := by omega
      rw [hi, pow_add, ← mul_assoc, ← pow_add, Nat.mul_div_cancel _ (by positivity)]
    · obtain ⟨u, hu⟩ : ∃ u : Nat, (-(((Nat.log 2 m + i : Nat) : Int) - (j : Int) - 52)) = u :=
        ⟨_, (Int.toNat_of_nonneg (by omega)).symm⟩
      rw [hu, Int.toNat_ofNat]
      have hi : i + u = t + j := by omega
      rw [mul_assoc, ← pow_add, hi, pow_add, ← mul_assoc, Nat.mul_div_cancel _ (by positivity)]
  have hmax : max (((Nat.log 2 m + i : Nat) : Int) - (j : Int) - 52) (-1074) = e := by
    rcases h3 with h | h
    · have := hL3 h
      rw [max_eq_left (by omega)]; omega
    · rw [max_eq_right (by omega)]; omega
  have hq : (if 0 ≤ e then m * 2 ^ i else m * 2 ^ i * 2 ^ (-e).toNat)
      = m * (if 0 ≤ e then 2 ^ j * 2 ^ e.toNat else 2 ^ j) := by
    split_ifs with h0
    · obtain ⟨u, hu⟩ : ∃ u : Nat, e = u := ⟨_, (Int.toNat_of_nonneg h0).symm⟩
      rw [hu, Int.toNat_ofNat, ← pow_add]
      have : i = j + u := by omega
      rw [this]
    · obtain ⟨u, hu⟩ : ∃ u : Nat, -e = u := ⟨_, (Int.toNat_of_nonneg (by omega)).symm⟩
      rw [hu, Int.toNat_ofNat, mul_assoc, ← pow_add]
      have : i + u = j := by omega
      rw [this]
  have hden : 0 < (if 0 ≤ e then 2 ^ j * 2 ^ e.toNat else 2 ^ j) := by
    split_ifs <;> positivity
  unfold F64.round
  rw [if_neg hn]
  simp only [F64.ilog2_mul_pow m i hm0, F64.ilog2_pow, hq0a, if_neg (not_lt.mpr hq0), hmax, hq,
    Nat.mul_div_cancel _ hden, Nat.mul_mod_left]
  generalize (if 0 ≤ e then 2 ^ j * 2 ^ e.toNat else 2 ^ j) = dd at hden
  have hc : ¬ (dd < 2 * 0 ∨ (2 * 0 = dd ∧ m % 2 = 1)) := by omega
  rw [if_neg hc, if_neg (Nat.ne_of_lt hm), if_neg (not_lt.mpr h2), if_neg (Nat.ne_of_lt hm)]


/-- The literal `0.0` is the positive zero. -/
theorem F64.zero_literal : (0.0 : F64) = F64.zero false := by decide

/-- Adding `0.0` to a binary64 datum gives the datum back, except that `-0.0 + 0.0` is
`0.0` and that a signalling NaN comes back quiet. -/
theorem F64.add_zero_right (x : F64) (hx : x.Canonical) :
    x + F64.zero false = x.dropNegZero.quiet := by
  show F64.add x (F64.fin false 0 (-1074)) = _
  cases x with
  | nan s g p => simp [F64.add, F64.dropNegZero, F64.zero, F64.quiet]
  | inf s => simp [F64.add, F64.dropNegZero, F64.zero, F64.quiet]
  | fin s m e =>
    obtain ⟨hm, h1, h2, h3⟩ := hx
    by_cases hm0 : m = 0
    · subst hm0
      have he : e = -1074 := by
        rcases h3 with h | h
        · norm_num at h
        · exact h
      subst he
      cases s <;> decide
    · have hne : F64.fin s m e ≠ F64.zero true := by
        intro h
        simp only [F64.zero] at h
        injection h with _ h _
        exact hm0 h
      rw [F64.dropNegZero, if_neg hne]
      show _ = F64.fin s m e
      have key : F64.round s (F64.num m e * F64.den (-1074)) (F64.den e * F64.den (-1074))
          = F64.fin s m e := by
        by_cases h0 : 0 ≤ e
        · obtain ⟨u, hu⟩ : ∃ u : Nat, e = u := ⟨_, (Int.toNat_of_nonneg h0).symm⟩
          have hnum : F64.num m e * F64.den (-1074) = m * 2 ^ (u + 1074) := by
            simp [F64.num, F64.den, h0, hu, pow_add, mul_assoc]
          have hdenom : F64.den e * F64.den (-1074) = 2 ^ 1074 := by
            simp [F64.den, h0]
          rw [hnum, hdenom]
          exact F64.round_pow2 s m _ _ e hm0 hm (by omega) h1 h2 h3
        · obtain ⟨u, hu⟩ : ∃ u : Nat, -e = u := ⟨_, (Int.toNat_of_nonneg (by omega)).symm⟩
          have hnum : F64.num m e * F64.den (-1074) = m * 2 ^ 1074 := by
            simp [F64.num, F64.den, h0]
          have hdenom : F64.den e * F64.den (-1074) = 2 ^ (u + 1074) := by
            simp [F64.den, h0, hu, pow_add]
          rw [hnum, hdenom]
          exact F64.round_pow2 s m _ _ e hm0 hm (by omega) h1 h2 h3
      have hpos : F64.num m e * F64.den (-1074) ≠ 0 := by
        have : 0 < F64.num m e := by
          unfold F64.num; split_ifs <;> positivity
        have : 0 < F64.den (-1074) := by
          unfold F64.den; split_ifs <;> positivity
        positivity
      have hb : F64.num 0 (-1074) * F64.den e = 0 := by simp [F64.num]
      simp only [F64.add, hb]
      cases s
      · simpa using key
      · have hlt : 0 < F64.num m e * F64.den (-1074) := Nat.pos_of_ne_zero hpos
        simp only [Bool.true_eq_false, if_false, if_neg hpos, if_pos hlt, Nat.sub_zero]
        exact key

/-! ## The default-constructed field in a sum -/

/-- C17, the claim as stated fails: the `Electric_Field` with components
`(-0.0, 0.0, 0.0)` plus a default-constructed one has x component `0.0`, not `-0.0`. -/
theorem add_default_not_identity :
    ¬ ((((Electric_Field.ctor3 (F64.zero true) 0.0 0.0 0.0 : Electric_Field F64).add
            (Electric_Field.ctor 0.0) 0.0).getX
          = (Electric_Field.ctor3 (F64.zero true) 0.0 0.0 0.0 : Electric_Field F64).getX ∧
        ((Electric_Field.ctor3 (F64.zero true) 0.0 0.0 0.0 : Electric_Field F64).add
            (Electric_Field.ctor 0.0) 0.0).getY
          = (Electric_Field.ctor3 (F64.zero true) 0.0 0.0 0.0 : Electric_Field F64).getY ∧
        ((Electric_Field.ctor3 (F64.zero true) 0.0 0.0 0.0 : Electric_Field F64).add
            (Electric_Field.ctor 0.0) 0.0).getZ
          = (Electric_Field.ctor3 (F64.zero true) 0.0 0.0 0.0 : Electric_Field F64).getZ) ∧
      (((Electric_Field.ctor 0.0 : Electric_Field F64).add
            (Electric_Field.ctor3 (F64.zero true) 0.0 0.0 0.0) 0.0).getX
          = (Electric_Field.ctor3 (F64.zero true) 0.0 0.0 0.0 : Electric_Field F64).getX ∧
        ((Electric_Field.ctor 0.0 : Electric_Field F64).add
            (Electric_Field.ctor3 (F64.zero true) 0.0 0.0 0.0) 0.0).getY
          = (Electric_Field.ctor3 (F64.zero true) 0.0 0.0 0.0 : Electric_Field F64).getY ∧
        ((Electric_Field.ctor 0.0 : Electric_Field F64).add
            (Electric_Field.ctor3 (F64.zero true) 0.0 0.0 0.0) 0.0).getZ
          = (Electric_Field.ctor3 (F64.zero true) 0.0 0.0 0.0 : Electric_Field F64).getZ)) := by
  decide

/-- C17, amended: for a field whose components are binary64 data, each component of
`a + Electric_Field()` and of `Electric_Field() + a` is the component of `a` (a NaN
stays a NaN of the same sign and payload, a signalling one made quiet), except that a
component `-0.0` becomes `0.0`; likewise for `Magnetic_Field`; whatever the storage of
the default-constructed field and of the sum held. -/
theorem add_default_identity (a : Electric_Field F64) (c : Magnetic_Field F64)
    (mem mem1 : F64)
    (ha : a.getX.Canonical ∧ a.getY.Canonical ∧ a.getZ.Canonical)
    (hc : c.getX.Canonical ∧ c.getY.Canonical ∧ c.getZ.Canonical) :
    ((((a.add (Electric_Field.ctor mem) mem1).getX = a.getX.dropNegZero.quiet ∧
        (a.add (Electric_Field.ctor mem) mem1).getY = a.getY.dropNegZero.quiet ∧
        (a.add (Electric_Field.ctor mem) mem1).getZ = a.getZ.dropNegZero.quiet) ∧
      (((Electric_Field.ctor mem).add a mem1).getX = a.getX.dropNegZero.quiet ∧
        ((Electric_Field.ctor mem).add a mem1).getY = a.getY.dropNegZero.quiet ∧
        ((Electric_Field.ctor mem).add a mem1).getZ = a.getZ.dropNegZero.quiet)) ∧
    (((c.add (Magnetic_Field.ctor mem) mem1).getX = c.getX.dropNegZero.quiet ∧
        (c.add (Magnetic_Field.ctor mem) mem1).getY = c.getY.dropNegZero.quiet ∧
        (c.add (Magnetic_Field.ctor mem) mem1).getZ = c.getZ.dropNegZero.quiet) ∧
      (((Magnetic_Field.ctor mem).add c mem1).getX = c.getX.dropNegZero.quiet ∧
        ((Magnetic_Field.ctor mem).add c mem1).getY = c.getY.dropNegZero.quiet ∧
        ((Magnetic_Field.ctor mem).add c mem1).getZ = c.getZ.dropNegZero.quiet))) ∧
    (∀ x : F64, x.isNaN = false → x ≠ F64.zero true → x.dropNegZero.quiet = x) := by
  have right : ∀ x : F64, x.Canonical → x + (0.0 : F64) = x.dropNegZero.quiet := fun x hx => by
    rw [F64.zero_literal, F64.add_zero_right x hx]
  have left : ∀ x : F64, x.Canonical → (0.0 : F64) + x = x.dropNegZero.quiet := fun x hx => by
    rw [F64.add_comm_of_not_both_nan _ _ (Or.inl (by decide)), right x hx]
  refine ⟨⟨⟨⟨right _ ha.1, right _ ha.2.1, right _ ha.2.2⟩,
      ⟨left _ ha.1, left _ ha.2.1, left _ ha.2.2⟩⟩,
    ⟨⟨right _ hc.1, right _ hc.2.1, right _ hc.2.2⟩,
      ⟨left _ hc.1, left _ hc.2.1, left _ hc.2.2⟩⟩⟩, ?_⟩
  intro x hx hz
  rw [F64.dropNegZero, if_neg hz]
  cases x with
  | nan s g p => simp [F64.isNaN] at hx
  | inf s => rfl
  | fin s m e => rfl

/-- C17, amended, at the operands `e1` and `b1` of `main`, whose components are the
finite numbers `(1, 2, 3)` and `(7, 8, 9)`. -/
theorem add_default_identity_witness :
    (((main_e1 0.0).getX.Canonical ∧ (main_e1 0.0).getY.Canonical ∧
        (main_e1 0.0).getZ.Canonical) ∧
      ((main_b1 0.0).getX.Canonical ∧ (main_b1 0.0).getY.Canonical ∧
        (main_b1 0.0).getZ.Canonical)) ∧
    (((((main_e1 0.0).add (Electric_Field.ctor 0.0) 0.0).getX
          = (main_e1 0.0).getX.dropNegZero.quiet ∧
        ((main_e1 0.0).add (Electric_Field.ctor 0.0) 0.0).getY
          = (main_e1 0.0).getY.dropNegZero.quiet ∧
        ((main_e1 0.0).add (Electric_Field.ctor 0.0) 0.0).getZ
          = (main_e1 0.0).getZ.dropNegZero.quiet) ∧
      (((Electric_Field.ctor 0.0).add (main_e1 0.0) 0.0).getX
          = (main_e1 0.0).getX.dropNegZero.quiet ∧
        ((Electric_Field.ctor 0.0).add (main_e1 0.0) 0.0).getY
          = (main_e1 0.0).getY.dropNegZero.quiet ∧
        ((Electric_Field.ctor 0.0).add (main_e1 0.0) 0.0).getZ
          = (main_e1 0.0).getZ.dropNegZero.quiet)) ∧
    ((((main_b1 0.0).add (Magnetic_Field.ctor 0.0) 0.0).getX
          = (main_b1 0.0).getX.dropNegZero.quiet ∧
        ((main_b1 0.0).add (Magnetic_Field.ctor 0.0) 0.0).getY
          = (main_b1 0.0).getY.dropNegZero.quiet ∧
        ((main_b1 0.0).add (Magnetic_Field.ctor 0.0) 0.0).getZ
          = (main_b1 0.0).getZ.dropNegZero.quiet) ∧
      (((Magnetic_Field.ctor 0.0).add (main_b1 0.0) 0.0).getX
          = (main_b1 0.0).getX.dropNegZero.quiet ∧
        ((Magnetic_Field.ctor 0.0).add (main_b1 0.0) 0.0).getY
          = (main_b1 0.0).getY.dropNegZero.quiet ∧
        ((Magnetic_Field.ctor 0.0).add (main_b1 0.0) 0.0).getZ
          = (main_b1 0.0).getZ.dropNegZero.quiet))) ∧
    ((main_e1 0.0).getX.dropNegZero.quiet = 1.0 ∧ (main_e1 0.0).getY.dropNegZero.quiet = 2.0 ∧
      (main_e1 0.0).getZ.dropNegZero.quiet = 3.0) :=
  ⟨⟨by decide, by decide⟩,
    (add_default_identity (main_e1 0.0) (main_b1 0.0) 0.0 0.0 (by decide) (by decide)).1,
    by decide⟩

/-! ## Ampere's formula in exact arithmetic -/

/-- C18: in an exact ordered field with a nonzero `M_PI`, for every `I` and every
`r ≠ 0` the value stored by `calculateMagneticField(I, r)` is `2e-7 * I / r`; scaling
`I` by `k` scales the value by `k`, and scaling `r` by `k ≠ 0` divides it by `k`. -/
theorem calculateMagneticField_exact {K : Type} [LinearOrderedField K] [Cmath K]
    (b : Magnetic_Field K) (I r : K) (hpi : (M_PI : K) ≠ 0) (hr : r ≠ 0) :
    (b.calculateMagneticField I r).getCalculatedB = 2e-7 * I / r ∧
    (∀ k : K, (b.calculateMagneticField (k * I) r).getCalculatedB
      = k * (2e-7 * I / r)) ∧
    (∀ k : K, k ≠ 0 → (b.calculateMagneticField I (k * r)).getCalculatedB
      = (2e-7 * I / r) / k) := by
  have key : ∀ J s : K, s ≠ 0 → (mu_0 * J) / (2 * M_PI * s) = 2e-7 * J / s := by
    intro J s hs
    show (4 * M_PI * 1e-7 * J) / (2 * M_PI * s) = 2e-7 * J / s
    field_simp
    norm_num
    ring
  refine ⟨?_, fun k => ?_, fun k hk => ?_⟩
  · show (mu_0 * I) / (2 * M_PI * r) = _
    rw [key I r hr]
  · show (mu_0 * (k * I)) / (2 * M_PI * r) = _
    rw [key (k * I) r hr]
    ring
  · show (mu_0 * I) / (2 * M_PI * (k * r)) = _
    rw [key I (k * r) (mul_ne_zero hk hr), div_div, mul_comm k r]

/-- C18 over the real numbers with `M_PI` the number π, at `I = 1` and `r = 1/10`. -/
theorem calculateMagneticField_exact_witness :
    (Real.pi ≠ 0 ∧ (1 / 10 : ℝ) ≠ 0) ∧
    (@Magnetic_Field.calculateMagneticField ℝ _ _ _ _ _ ⟨Real.pi⟩
      (Magnetic_Field.ctor3 7 8 9 0) 1 (1 / 10)).getCalculatedB = 2e-7 * 1 / (1 / 10) :=
  ⟨⟨Real.pi_ne_zero, by norm_num⟩,
    (@calculateMagneticField_exact ℝ _ ⟨Real.pi⟩ (Magnetic_Field.ctor3 7 8 9 0) 1 (1 / 10)
      Real.pi_ne_zero (by norm_num)).1⟩

end Inheritance
